import Mathlib

/-!
Shallow embedding of the record query and shaping pipeline and the bulk
mutation engine of the cloudflare-platform-mcp repository.

JavaScript strings are modelled as `List Char`; JS numbers appearing as
integers are modelled as `Int` (or `Nat` where the source guarantees
non-negativity); absent JS object fields are modelled as `Option`, and the
JS truthiness test on a string field holds exactly when the field is
present and non-empty.  `Math.floor(Math.random() * (i + 1))` is modelled
by an explicit stream `g : Nat → Nat` of random draws, reduced modulo
`i + 1` so that the drawn index is uniform over `0 … i`.
-/

namespace CfDns

/-- Source: src/constants.ts — maximum characters in a single tool response
before truncation. -/
def CHARACTER_LIMIT : Nat := 25000

/-- Source: src/constants.ts — default number of records per page. -/
def DEFAULT_PER_PAGE : Nat := 50

/-- The fixed guidance appended by the size guard,
from src/utils/pagination.ts (truncateIfNeeded). -/
def truncationNotice : List Char :=
  ("\n\n--- TRUNCATED ---\nResponse exceeded token limit. Use `page`, `per_page`, or filter parameters (filter_type, filter_name) to narrow results.").data

/-- Embedding of JavaScript `String.prototype.lastIndexOf` restricted to a
single character, returning `none` where JS returns `-1`. -/
def lastIndexOfChar (c : Char) : List Char → Option Nat
  | [] => none
  | x :: xs =>
    match lastIndexOfChar c xs with
    | some i => some (i + 1)
    | none => if x = c then some 0 else none

/-- Source: src/utils/pagination.ts, `truncateIfNeeded`.  The guard
`lastNewline > CHARACTER_LIMIT * 0.8` compares against 25000 · 0.8 = 20000,
written here as `4 * CHARACTER_LIMIT / 5`; a JS `lastIndexOf` result of
`-1` (our `none`) fails that guard. -/
def truncateIfNeeded (text : List Char) : List Char :=
  if text.length ≤ CHARACTER_LIMIT then text
  else
    let truncated := text.take CHARACTER_LIMIT
    let cleanCut :=
      match lastIndexOfChar '\n' truncated with
      | some i => if 4 * CHARACTER_LIMIT / 5 < i then truncated.take i else truncated
      | none => truncated
    cleanCut ++ truncationNotice

/-- Pagination metadata, src/utils/pagination.ts. -/
structure PaginationMeta where
  total : Nat
  count : Nat
  page : Nat
  per_page : Nat
  has_more : Bool
  deriving Repr, DecidableEq

/-- Source: src/utils/pagination.ts, `buildPaginationMeta`. -/
def buildPaginationMeta {α : Type} (total : Nat) (items : List α)
    (page perPage : Nat) : PaginationMeta :=
  { total := total
    count := items.length
    page := page
    per_page := perPage
    has_more := decide (page * perPage < total) }

/-- In-place swap of two positions of a list, the embedding of
`[a[i], a[j]] = [a[j], a[i]]`; out-of-bounds indices leave the list
unchanged (the source only ever swaps in bounds). -/
def listSwap {α : Type} (l : List α) (i j : Nat) : List α :=
  match l[i]?, l[j]? with
  | some a, some b => (l.set i b).set j a
  | _, _ => l

/-- The Fisher–Yates loop of src/utils/pagination.ts `randomSample`:
`for (let i = length - 1; i > 0; i--) swap(i, g(i) % (i+1))`.
`fyShuffle g l i` performs the swaps at positions `i, i-1, …, 1`. -/
def fyShuffle {α : Type} (g : Nat → Nat) : List α → Nat → List α
  | l, 0 => l
  | l, i + 1 => fyShuffle g (listSwap l (i + 1) (g (i + 1) % (i + 2))) i

/-- Source: src/utils/pagination.ts, `randomSample`. -/
def randomSample {α : Type} (g : Nat → Nat) (items : List α) (n : Nat) :
    List α :=
  if items.length ≤ n then items
  else (fyShuffle g items (items.length - 1)).take n

/-- Modelled from the spec, for comparison with `randomSample` (claim C3):
the spec describes a PARTIAL Fisher–Yates — iterate from the end of a
working copy backward, swap each position with a uniformly chosen
earlier-or-equal position, stop after `n` swaps.  `shuffleSteps g l i k`
swaps at positions `i, i-1, …` but performs at most `k` swaps. -/
def shuffleSteps {α : Type} (g : Nat → Nat) : List α → Nat → Nat → List α
  | l, _, 0 => l
  | l, 0, _ + 1 => l
  | l, i + 1, k + 1 =>
    shuffleSteps g (listSwap l (i + 1) (g (i + 1) % (i + 2))) i k

/-- Modelled from the spec (claim C3): stop after `n` swaps and return the
LAST `n` positions of the working copy (or all, if `n ≥ len`). -/
def specSample {α : Type} (g : Nat → Nat) (items : List α) (n : Nat) :
    List α :=
  if items.length ≤ n then items
  else (shuffleSteps g items (items.length - 1) n).drop (items.length - n)

/-- The nested structured payload of a service (SRV) record, as read by the
formatter (`record.data.priority/weight/port`); each field may be absent. -/
structure SrvData where
  priority : Option Int
  weight : Option Int
  port : Option Int
  deriving Repr, DecidableEq

/-- A raw Cloudflare DNS record as the formatter and summarizer read it: an
open JS object, of which exactly these fields are consulted.  Each is
optional because the source guards every access with `??`, `!== undefined`
or a truthiness test. -/
structure DnsRecord where
  id : Option (List Char)
  type : Option (List Char)
  name : Option (List Char)
  content : Option (List Char)
  ttl : Option Int
  proxied : Option Bool
  comment : Option (List Char)
  created_on : Option (List Char)
  modified_on : Option (List Char)
  priority : Option Int
  data : Option SrvData
  deriving Repr, DecidableEq

/-- `record.ttl === 1 ? "auto" : Number(record.ttl ?? 0)` — either the
literal marker or a number. -/
inductive TtlValue where
  | auto : TtlValue
  | num : Int → TtlValue
  deriving Repr, DecidableEq

/-- The concise projection produced by `formatRecord` with `concise=true`
(src/formatters/record.ts, interface ConciseRecord); `Option` fields are
present on the JS object exactly when they are `some` here. -/
structure ConciseRecord where
  id : List Char
  type : List Char
  name : List Char
  content : List Char
  ttl : TtlValue
  proxied : Option Bool
  comment : Option (List Char)
  created_on : Option (List Char)
  modified_on : Option (List Char)
  priority : Option Int
  weight : Option Int
  port : Option Int
  deriving Repr, DecidableEq

/-- JS truthiness of an optional string field: present and non-empty. -/
def truthyStr (s : Option (List Char)) : Option (List Char) :=
  match s with
  | some c => if c = [] then none else some c
  | none => none

/-- Source: src/formatters/record.ts, `formatRecord`, concise branch.  The
field assignments follow the source line by line; the two conditional
writers of `priority` (mail-exchange and service branches) cannot both
fire since they test the same `result.type`. -/
def formatRecordConcise (record : DnsRecord) : ConciseRecord :=
  let ty := record.type.getD []
  { id := record.id.getD []
    type := ty
    name := record.name.getD []
    content := record.content.getD []
    ttl := if record.ttl = some 1 then TtlValue.auto
           else TtlValue.num (record.ttl.getD 0)
    proxied :=
      if ty = "A".data ∨ ty = "AAAA".data ∨ ty = "CNAME".data then
        some (record.proxied.getD false)
      else none
    comment := truthyStr record.comment
    created_on := truthyStr record.created_on
    modified_on := truthyStr record.modified_on
    priority :=
      if ty = "MX".data ∧ record.priority ≠ none then record.priority
      else if ty = "SRV".data then record.data.bind SrvData.priority
      else none
    weight :=
      if ty = "SRV".data then record.data.bind SrvData.weight else none
    port :=
      if ty = "SRV".data then record.data.bind SrvData.port else none }

/-- Source: src/formatters/record.ts, `formatRecord`: with `concise=false`
the record is returned unchanged (inl); otherwise the concise projection
is applied (inr). -/
def formatRecord (record : DnsRecord) (concise : Bool) :
    DnsRecord ⊕ ConciseRecord :=
  if concise then Sum.inr (formatRecordConcise record) else Sum.inl record

/-- Source: src/formatters/record.ts, `formatRecords`. -/
def formatRecords (records : List DnsRecord) (concise : Bool) :
    List (DnsRecord ⊕ ConciseRecord) :=
  records.map (fun r => formatRecord r concise)

/-- `const concise = params.include_details ? false : params.concise`
(src/tools/records-read.ts lines 45 and 141). -/
def resolveConcise (include_details concise : Bool) : Bool :=
  if include_details then false else concise

/-- The summary object of `buildRecordSummary`; `by_type` is the JS object
built key-by-key, modelled as an association list in insertion order. -/
structure RecordSummary where
  total : Nat
  by_type : List (List Char × Nat)
  proxied : Nat
  dns_only : Nat
  deriving Repr, DecidableEq

/-- `byType[type] = (byType[type] ?? 0) + 1`: bump the count of a key in
the association map, inserting it with count 1 when absent. -/
def bumpType : List (List Char × Nat) → List Char → List (List Char × Nat)
  | [], t => [(t, 1)]
  | (s, c) :: rest, t =>
    if s = t then (s, c + 1) :: rest else (s, c) :: bumpType rest t

/-- Reading a count out of the association map, 0 when absent. -/
def lookupCount : List (List Char × Nat) → List Char → Nat
  | [], _ => 0
  | (s, c) :: rest, t => if s = t then c else lookupCount rest t

/-- The key a record is counted under: `String(r.type ?? "UNKNOWN")`. -/
def typeKey (r : DnsRecord) : List Char :=
  r.type.getD ("UNKNOWN".data)

/-- The `for (const r of records)` loop of `buildRecordSummary`, carrying
the map and the two proxy counters; `if (r.proxied)` is truthy exactly for
`some true`. -/
def summaryLoop : List DnsRecord → List (List Char × Nat) → Nat → Nat →
    List (List Char × Nat) × Nat × Nat
  | [], m, p, d => (m, p, d)
  | r :: rest, m, p, d =>
    let m2 := bumpType m (typeKey r)
    if r.proxied = some true then summaryLoop rest m2 (p + 1) d
    else summaryLoop rest m2 p (d + 1)

/-- Source: src/formatters/record.ts, `buildRecordSummary`. -/
def buildRecordSummary (records : List DnsRecord) : RecordSummary :=
  let res := summaryLoop records [] 0 0
  { total := records.length
    by_type := res.1
    proxied := res.2.1
    dns_only := res.2.2 }

/-- The parameters of `cf_dns_list_records` that drive output shaping
(src/schemas: summary_only and random_sample default false, concise
defaults true, include_details defaults false, page ≥ 1, per_page ≥ 1,
1 ≤ sample_size ≤ 50). -/
structure ListParams where
  summary_only : Bool
  random_sample : Bool
  sample_size : Nat
  page : Nat
  per_page : Nat
  include_details : Bool
  concise : Bool
  deriving Repr, DecidableEq

/-- The sample-mode header `{ total_in_zone, sample_size }`. -/
structure SampleMeta where
  total_in_zone : Nat
  sample_size : Nat
  deriving Repr, DecidableEq

/-- The three mutually exclusive response payloads of
`cf_dns_list_records` (src/tools/records-read.ts lines 76–109). -/
inductive ListOutput where
  | summary : RecordSummary → ListOutput
  | sample : SampleMeta → List (DnsRecord ⊕ ConciseRecord) → ListOutput
  | paginated : PaginationMeta → Option RecordSummary →
      List (DnsRecord ⊕ ConciseRecord) → ListOutput

/-- Source: src/tools/records-read.ts, `cf_dns_list_records` handler from
line 73 on, given the fetched record set; `total = records.length`.  Mode
dispatch: `if (params.summary_only) … if (params.random_sample) …` then
the paginated default with its `total > 20` summary attachment. -/
def listRecordsOutput (g : Nat → Nat) (params : ListParams)
    (records : List DnsRecord) : ListOutput :=
  let concise := resolveConcise params.include_details params.concise
  let total := records.length
  if params.summary_only then
    ListOutput.summary (buildRecordSummary records)
  else if params.random_sample then
    let sampled := randomSample g records params.sample_size
    let formatted := formatRecords sampled concise
    ListOutput.sample
      { total_in_zone := total, sample_size := formatted.length } formatted
  else
    let start := (params.page - 1) * params.per_page
    let paged := (records.drop start).take params.per_page
    let formatted := formatRecords paged concise
    let pagination :=
      buildPaginationMeta total formatted params.page params.per_page
    let summary :=
      if 20 < total then some (buildRecordSummary records) else none
    ListOutput.paginated pagination summary formatted

/-- Source: src/tools/records-read.ts — the text returned for a list
request.  Serialization is the external `JSON.stringify`, abstracted as
`ser`.  The summary branch (line 79) returns `ser` output directly; the
sample branch (line 92) and the paginated branch (line 111) wrap it in
`truncateIfNeeded`. -/
def listRecordsText (g : Nat → Nat) (ser : ListOutput → List Char)
    (params : ListParams) (records : List DnsRecord) : List Char :=
  if params.summary_only then
    ser (listRecordsOutput g params records)
  else truncateIfNeeded (ser (listRecordsOutput g params records))

/-- Source: src/tools/records-read.ts, `cf_dns_get_record` (lines
138–150): the fetched record is formatted with the resolved concise flag
and serialized — with no `truncateIfNeeded` around it. -/
def getRecordText (ser : (DnsRecord ⊕ ConciseRecord) → List Char)
    (record : DnsRecord) (include_details concise : Bool) : List Char :=
  ser (formatRecord record (resolveConcise include_details concise))

/-- One entry of the bulk results array (src/tools/records-bulk.ts lines
34–39): on success the formatted record, on failure the error text. -/
structure BulkOutcome where
  index : Nat
  success : Bool
  record : Option ConciseRecord
  error : Option (List Char)
  deriving Repr, DecidableEq

/-- The final value of `cf_dns_bulk_create` (line 76). -/
structure BulkCreateResult where
  created : Nat
  failed : Nat
  total : Nat
  results : List BulkOutcome
  deriving Repr, DecidableEq

/-- The Directory call of one bulk iteration (`client.dns.records.create`
or `.edit` with the payload built from the op), abstracted as a function
of the loop index: either the created/updated record or the error text
that `handleApiError` renders. -/
def DirectoryCall : Type := Nat → Except (List Char) DnsRecord

/-- Whether the Directory call at index `i` fails. -/
def callFails (call : DirectoryCall) (i : Nat) : Bool :=
  match call i with
  | Except.ok _ => false
  | Except.error _ => true

/-- Number of failing Directory calls among indices `i, i+1, …, i+n-1`. -/
def failCount (call : DirectoryCall) : Nat → Nat → Nat
  | _, 0 => 0
  | i, n + 1 => (if callFails call i then 1 else 0) + failCount call (i + 1) n

/-- The `for (let i = 0; …)` loop of `cf_dns_bulk_create` (lines 44–71),
one recursion step per operation, `i` the current index: each success
pushes `{index, success: true, record: formatRecord(rec, true)}` and bumps
`created`; each caught failure pushes `{index, success: false, error}` and
bumps `failed`; the loop never stops early.  Returns
(created, failed, results). -/
def bulkCreateLoop {op : Type} (call : DirectoryCall) :
    List op → Nat → Nat × Nat × List BulkOutcome
  | [], _ => (0, 0, [])
  | _ :: rest, i =>
    match call i with
    | Except.ok rec =>
      let r := bulkCreateLoop call rest (i + 1)
      (r.1 + 1, r.2.1,
        { index := i, success := true,
          record := some (formatRecordConcise rec), error := none } :: r.2.2)
    | Except.error e =>
      let r := bulkCreateLoop call rest (i + 1)
      (r.1, r.2.1 + 1,
        { index := i, success := false,
          record := none, error := some e } :: r.2.2)

/-- Source: src/tools/records-bulk.ts, `cf_dns_bulk_create` handler:
`{ created, failed, total: params.records.length, results }`. -/
def cf_dns_bulk_create {op : Type} (call : DirectoryCall) (ops : List op) :
    BulkCreateResult :=
  let r := bulkCreateLoop call ops 0
  { created := r.1, failed := r.2.1, total := ops.length, results := r.2.2 }

/-- One entry of the bulk update results array (lines 109–115): as for
create but carrying the targeted record_id. -/
structure BulkUpdateOutcome where
  index : Nat
  record_id : List Char
  success : Bool
  record : Option ConciseRecord
  error : Option (List Char)
  deriving Repr, DecidableEq

/-- The final value of `cf_dns_bulk_update` (line 149). -/
structure BulkUpdateResult where
  updated : Nat
  failed : Nat
  total : Nat
  results : List BulkUpdateOutcome
  deriving Repr, DecidableEq

/-- An update operation as the loop reads it: only `record_id` shapes the
outcome entries; the field payload goes into the Directory call. -/
structure UpdateOp where
  record_id : List Char
  deriving Repr, DecidableEq

/-- The `for` loop of `cf_dns_bulk_update` (lines 120–144), mirroring
`bulkCreateLoop` with the `record_id` of each op in the outcome. -/
def bulkUpdateLoop (call : DirectoryCall) :
    List UpdateOp → Nat → Nat × Nat × List BulkUpdateOutcome
  | [], _ => (0, 0, [])
  | o :: rest, i =>
    match call i with
    | Except.ok rec =>
      let r := bulkUpdateLoop call rest (i + 1)
      (r.1 + 1, r.2.1,
        { index := i, record_id := o.record_id, success := true,
          record := some (formatRecordConcise rec), error := none } :: r.2.2)
    | Except.error e =>
      let r := bulkUpdateLoop call rest (i + 1)
      (r.1, r.2.1 + 1,
        { index := i, record_id := o.record_id, success := false,
          record := none, error := some e } :: r.2.2)

/-- Source: src/tools/records-bulk.ts, `cf_dns_bulk_update` handler. -/
def cf_dns_bulk_update (call : DirectoryCall) (ops : List UpdateOp) :
    BulkUpdateResult :=
  let r := bulkUpdateLoop call ops 0
  { updated := r.1, failed := r.2.1, total := ops.length, results := r.2.2 }

/-- Source: src/tools/records-bulk.ts lines 73–78 — the text returned by a
bulk create: the serialized result, with no `truncateIfNeeded` around
it. -/
def bulkCreateText {op : Type} (ser : BulkCreateResult → List Char)
    (call : DirectoryCall) (ops : List op) : List Char :=
  ser (cf_dns_bulk_create call ops)

/-- Source: src/tools/records-bulk.ts lines 146–151 — the text returned by
a bulk update: the serialized result, with no `truncateIfNeeded` around
it. -/
def bulkUpdateText (ser : BulkUpdateResult → List Char)
    (call : DirectoryCall) (ops : List UpdateOp) : List Char :=
  ser (cf_dns_bulk_update call ops)

/-- The three mutually exclusive forms a list-records response can take. -/
inductive ResponseForm where
  | summary : ResponseForm
  | sample : ResponseForm
  | paginated : ResponseForm
  deriving Repr, DecidableEq

/-- Which of the three forms a payload is. -/
def responseForm : ListOutput → ResponseForm
  | ListOutput.summary _ => ResponseForm.summary
  | ListOutput.sample _ _ => ResponseForm.sample
  | ListOutput.paginated _ _ _ => ResponseForm.paginated

/-- `i` is the index of the last occurrence of `c` in `l`. -/
def isLastIndexOf (c : Char) (l : List Char) (i : Nat) : Prop :=
  l[i]? = some c ∧ ∀ j : Nat, i < j → l[j]? ≠ some c

/-- Total of all bucket counts of the by_type map. -/
def sumCounts (m : List (List Char × Nat)) : Nat :=
  (m.map Prod.snd).sum

/-- The outcome entry the create loop pushes at index `i`, as a function of
the Directory call. -/
def createOutcome (call : DirectoryCall) (i : Nat) : BulkOutcome :=
  match call i with
  | Except.ok rec =>
    { index := i, success := true,
      record := some (formatRecordConcise rec), error := none }
  | Except.error e =>
    { index := i, success := false, record := none, error := some e }

/-- The outcome entry the update loop pushes at index `i` for op `u`. -/
def updateOutcome (call : DirectoryCall) (i : Nat) (u : UpdateOp) :
    BulkUpdateOutcome :=
  match call i with
  | Except.ok rec =>
    { index := i, record_id := u.record_id, success := true,
      record := some (formatRecordConcise rec), error := none }
  | Except.error e =>
    { index := i, record_id := u.record_id, success := false,
      record := none, error := some e }

/-- A concrete address record, used to instantiate theorems. -/
def rA : DnsRecord :=
  { id := some ("rec1".data), type := some ("A".data),
    name := some ("www".data), content := some ("198.51.100.4".data),
    ttl := some 300, proxied := some true, comment := none,
    created_on := none, modified_on := none, priority := none,
    data := none }

/-- A concrete mail-exchange record with a priority and the sentinel
automatic ttl. -/
def rMX : DnsRecord :=
  { id := some ("rec2".data), type := some ("MX".data),
    name := some ("mail".data), content := some ("mx1.example.com".data),
    ttl := some 1, proxied := none, comment := none,
    created_on := none, modified_on := none, priority := some 10,
    data := none }

/-- A concrete record with no type field at all. -/
def rNoType : DnsRecord :=
  { id := some ("rec3".data), type := none, name := some ("x".data),
    content := some ("y".data), ttl := some 60, proxied := none,
    comment := none, created_on := none, modified_on := none,
    priority := none, data := none }

/-- Concrete list parameters requesting summary mode (with random_sample
also set, to exercise the precedence). -/
def summaryParams : ListParams :=
  { summary_only := true, random_sample := true, sample_size := 5,
    page := 1, per_page := DEFAULT_PER_PAGE, include_details := false,
    concise := true }

/-- A serializer producing a fixed payload larger than the character
budget, to instantiate theorems about the size guard. -/
def serBig : ListOutput → List Char :=
  fun _ => List.replicate 30000 'a'

/-- A concrete Directory behaviour: the call at index 1 fails, all others
succeed. -/
def exCall : DirectoryCall :=
  fun i => if i = 1 then Except.error ("boom".data) else Except.ok rA

/-! ### Helper lemmas -/

theorem cons_set_perm {α : Type} (xs : List α) (k : Nat) (a b : α)
    (h : xs[k]? = some b) : (b :: xs.set k a).Perm (a :: xs) := by
  induction xs generalizing k with
  | nil => simp at h
  | cons x ys ih =>
    cases k with
    | zero =>
      simp only [List.getElem?_cons_zero, Option.some.injEq] at h
      subst h
      simpa using List.Perm.swap a x ys
    | succ k =>
      simp only [List.getElem?_cons_succ] at h
      have step1 : (b :: x :: ys.set k a).Perm (x :: b :: ys.set k a) :=
        List.Perm.swap x b (ys.set k a)
      have step2 : (x :: b :: ys.set k a).Perm (x :: a :: ys) :=
        (ih k h).cons x
      have step3 : (x :: a :: ys).Perm (a :: x :: ys) := List.Perm.swap a x ys
      simpa using (step1.trans step2).trans step3

theorem set_set_perm {α : Type} (xs : List α) :
    ∀ (i j : Nat) (a b : α), xs[i]? = some a → xs[j]? = some b →
    ((xs.set i b).set j a).Perm xs := by
  induction xs with
  | nil => intro i j a b h1 _; simp at h1
  | cons x ys ih =>
    intro i j a b h1 h2
    cases i with
    | zero =>
      simp only [List.getElem?_cons_zero, Option.some.injEq] at h1
      cases j with
      | zero =>
        simp only [List.getElem?_cons_zero, Option.some.injEq] at h2
        subst h1; subst h2
        simp
      | succ m =>
        simp only [List.getElem?_cons_succ] at h2
        subst h1
        simpa using cons_set_perm ys m x b h2
    | succ n =>
      simp only [List.getElem?_cons_succ] at h1
      cases j with
      | zero =>
        simp only [List.getElem?_cons_zero, Option.some.injEq] at h2
        subst h2
        simpa using cons_set_perm ys n x a h1
      | succ m =>
        simp only [List.getElem?_cons_succ] at h2
        simpa using (ih n m a b h1 h2).cons x

theorem listSwap_perm {α : Type} (l : List α) (i j : Nat) :
    (listSwap l i j).Perm l := by
  unfold listSwap
  cases h1 : l[i]? with
  | none => exact List.Perm.refl l
  | some a =>
    cases h2 : l[j]? with
    | none => exact List.Perm.refl l
    | some b => exact set_set_perm l i j a b h1 h2

theorem fyShuffle_perm {α : Type} (g : Nat → Nat) :
    ∀ (i : Nat) (l : List α), (fyShuffle g l i).Perm l := by
  intro i
  induction i with
  | zero => intro l; exact List.Perm.refl l
  | succ i ih =>
    intro l
    exact (ih _).trans (listSwap_perm l (i + 1) (g (i + 1) % (i + 2)))

theorem fyShuffle_length {α : Type} (g : Nat → Nat) (i : Nat) (l : List α) :
    (fyShuffle g l i).length = l.length :=
  (fyShuffle_perm g i l).length_eq

theorem shuffleSteps_eq_fyShuffle {α : Type} (g : Nat → Nat) :
    ∀ (i k : Nat) (l : List α), i ≤ k →
    shuffleSteps g l i k = fyShuffle g l i := by
  intro i
  induction i with
  | zero =>
    intro k l _
    cases k with
    | zero => rfl
    | succ k => rfl
  | succ i ih =>
    intro k l hik
    cases k with
    | zero => omega
    | succ k =>
      show shuffleSteps g (listSwap l (i + 1) (g (i + 1) % (i + 2))) i k = _
      exact ih k _ (Nat.succ_le_succ_iff.mp hik)

theorem lastIndexOfChar_none {c : Char} :
    ∀ {l : List Char}, lastIndexOfChar c l = none →
    ∀ j : Nat, l[j]? ≠ some c := by
  intro l
  induction l with
  | nil => intro _ j; simp
  | cons x xs ih =>
    intro h j
    have hxs : lastIndexOfChar c xs = none := by
      cases hx : lastIndexOfChar c xs with
      | none => rfl
      | some i => simp [lastIndexOfChar, hx] at h
    have hxc : ¬ x = c := by
      intro he
      simp [lastIndexOfChar, hxs, he] at h
    cases j with
    | zero => simpa using hxc
    | succ j => simpa using ih hxs j

theorem lastIndexOfChar_some {c : Char} :
    ∀ {l : List Char} {i : Nat}, lastIndexOfChar c l = some i →
    isLastIndexOf c l i := by
  intro l
  induction l with
  | nil => intro i h; simp [lastIndexOfChar] at h
  | cons x xs ih =>
    intro i h
    cases hx : lastIndexOfChar c xs with
    | some i0 =>
      have hi : i = i0 + 1 := by
        simp [lastIndexOfChar, hx] at h
        omega
      subst hi
      obtain ⟨hocc, hlast⟩ := ih hx
      refine ⟨by simpa using hocc, ?_⟩
      intro j hj
      cases j with
      | zero => omega
      | succ j => simpa using hlast j (Nat.lt_of_succ_lt_succ hj)
    | none =>
      have hxc : x = c ∧ i = 0 := by
        by_cases he : x = c
        · simp [lastIndexOfChar, hx, he] at h
          exact ⟨he, h.symm⟩
        · simp [lastIndexOfChar, hx, he] at h
      obtain ⟨he, hi⟩ := hxc
      subst he; subst hi
      refine ⟨by simp, ?_⟩
      intro j hj
      cases j with
      | zero => omega
      | succ j => simpa using lastIndexOfChar_none hx j

theorem isLastIndexOf_unique {c : Char} {l : List Char} {i i' : Nat}
    (h : isLastIndexOf c l i) (h' : isLastIndexOf c l i') : i = i' := by
  rcases Nat.lt_trichotomy i i' with hlt | heq | hgt
  · exact absurd h'.1 (h.2 i' hlt)
  · exact heq
  · exact absurd h.1 (h'.2 i hgt)

theorem sumCounts_bumpType (m : List (List Char × Nat)) (t : List Char) :
    sumCounts (bumpType m t) = sumCounts m + 1 := by
  induction m with
  | nil => simp [bumpType, sumCounts]
  | cons e rest ih =>
    obtain ⟨s, c⟩ := e
    by_cases h : s = t
    · simp [bumpType, h, sumCounts]
      omega
    · simp only [bumpType, if_neg h, sumCounts, List.map_cons, List.sum_cons]
      have := ih
      simp only [sumCounts] at this
      omega

theorem lookupCount_bumpType_self (m : List (List Char × Nat))
    (t : List Char) : lookupCount (bumpType m t) t = lookupCount m t + 1 := by
  induction m with
  | nil => simp [bumpType, lookupCount]
  | cons e rest ih =>
    obtain ⟨s, c⟩ := e
    by_cases h : s = t
    · simp [bumpType, h, lookupCount]
    · simp [bumpType, h, lookupCount, ih]

theorem lookupCount_bumpType_ne (m : List (List Char × Nat))
    (t s : List Char) (h : s ≠ t) :
    lookupCount (bumpType m t) s = lookupCount m s := by
  have hts : ¬ t = s := fun he => h he.symm
  induction m with
  | nil => simp [bumpType, lookupCount, hts]
  | cons e rest ih =>
    obtain ⟨s0, c⟩ := e
    by_cases h0 : s0 = t
    · simp [bumpType, h0, lookupCount, hts]
    · by_cases h1 : s0 = s
      · simp [bumpType, h0, lookupCount, h1, h]
      · simp [bumpType, h0, lookupCount, h1, ih]

theorem summaryLoop_spec :
    ∀ (rs : List DnsRecord) (m : List (List Char × Nat)) (p d : Nat),
    sumCounts (summaryLoop rs m p d).1 = sumCounts m + rs.length ∧
    (summaryLoop rs m p d).2.1 + (summaryLoop rs m p d).2.2 =
      p + d + rs.length ∧
    ∀ t : List Char, lookupCount (summaryLoop rs m p d).1 t =
      lookupCount m t + rs.countP (fun r => typeKey r == t) := by
  intro rs
  induction rs with
  | nil => intro m p d; simp [summaryLoop]
  | cons r rest ih =>
    intro m p d
    have key : ∀ t : List Char,
        lookupCount (bumpType m (typeKey r)) t =
        lookupCount m t + (if typeKey r == t then 1 else 0) := by
      intro t
      by_cases ht : typeKey r = t
      · subst ht; simp [lookupCount_bumpType_self]
      · have : ¬ (typeKey r == t) = true := by
          simpa using ht
        simp [lookupCount_bumpType_ne m (typeKey r) t (fun he => ht he.symm),
          this]
    by_cases hp : r.proxied = some true
    · obtain ⟨ih1, ih2, ih3⟩ := ih (bumpType m (typeKey r)) (p + 1) d
      refine ⟨?_, ?_, ?_⟩
      · simp only [summaryLoop, if_pos hp]
        rw [ih1, sumCounts_bumpType]
        simp; omega
      · simp only [summaryLoop, if_pos hp]
        rw [ih2]; simp; omega
      · intro t
        simp only [summaryLoop, if_pos hp]
        rw [ih3 t, key t, List.countP_cons]
        omega
    · obtain ⟨ih1, ih2, ih3⟩ := ih (bumpType m (typeKey r)) p (d + 1)
      refine ⟨?_, ?_, ?_⟩
      · simp only [summaryLoop, if_neg hp]
        rw [ih1, sumCounts_bumpType]
        simp; omega
      · simp only [summaryLoop, if_neg hp]
        rw [ih2]; simp; omega
      · intro t
        simp only [summaryLoop, if_neg hp]
        rw [ih3 t, key t, List.countP_cons]
        omega

theorem bulkCreateLoop_results {op : Type} (call : DirectoryCall) :
    ∀ (ops : List op) (i : Nat),
    (bulkCreateLoop call ops i).2.2 =
      (List.range' i ops.length).map (createOutcome call) := by
  intro ops
  induction ops with
  | nil => intro i; simp [bulkCreateLoop]
  | cons o rest ih =>
    intro i
    cases hc : call i with
    | ok rec => simp [bulkCreateLoop, hc, ih, List.range', createOutcome]
    | error e => simp [bulkCreateLoop, hc, ih, List.range', createOutcome]

theorem bulkCreateLoop_counts {op : Type} (call : DirectoryCall) :
    ∀ (ops : List op) (i : Nat),
    (bulkCreateLoop call ops i).2.1 = failCount call i ops.length ∧
    (bulkCreateLoop call ops i).1 + failCount call i ops.length =
      ops.length := by
  intro ops
  induction ops with
  | nil => intro i; simp [bulkCreateLoop, failCount]
  | cons o rest ih =>
    intro i
    obtain ⟨ih1, ih2⟩ := ih (i + 1)
    cases hc : call i with
    | ok rec =>
      have hf : callFails call i = false := by simp [callFails, hc]
      constructor
      · simp [bulkCreateLoop, hc, failCount, hf, ih1]
      · simp [bulkCreateLoop, hc, failCount, hf]
        omega
    | error e =>
      have hf : callFails call i = true := by simp [callFails, hc]
      constructor
      · simp [bulkCreateLoop, hc, failCount, hf, ih1]
        omega
      · simp [bulkCreateLoop, hc, failCount, hf]
        omega

theorem bulkUpdateLoop_length (call : DirectoryCall) :
    ∀ (ops : List UpdateOp) (i : Nat),
    (bulkUpdateLoop call ops i).2.2.length = ops.length := by
  intro ops
  induction ops with
  | nil => intro i; simp [bulkUpdateLoop]
  | cons o rest ih =>
    intro i
    cases hc : call i with
    | ok rec => simp [bulkUpdateLoop, hc, ih]
    | error e => simp [bulkUpdateLoop, hc, ih]

theorem bulkUpdateLoop_results (call : DirectoryCall) :
    ∀ (ops : List UpdateOp) (i j : Nat) (u : UpdateOp),
    ops[j]? = some u →
    (bulkUpdateLoop call ops i).2.2[j]? =
      some (updateOutcome call (i + j) u) := by
  intro ops
  induction ops with
  | nil => intro i j u h; simp at h
  | cons o rest ih =>
    intro i j u h
    cases j with
    | zero =>
      simp only [List.getElem?_cons_zero, Option.some.injEq] at h
      subst h
      cases hc : call i with
      | ok rec => simp [bulkUpdateLoop, hc, updateOutcome]
      | error e => simp [bulkUpdateLoop, hc, updateOutcome]
    | succ j =>
      simp only [List.getElem?_cons_succ] at h
      have := ih (i + 1) j u h
      cases hc : call i with
      | ok rec =>
        simpa [bulkUpdateLoop, hc, Nat.add_assoc, Nat.add_comm 1 j]
          using this
      | error e =>
        simpa [bulkUpdateLoop, hc, Nat.add_assoc, Nat.add_comm 1 j]
          using this

theorem bulkUpdateLoop_counts (call : DirectoryCall) :
    ∀ (ops : List UpdateOp) (i : Nat),
    (bulkUpdateLoop call ops i).2.1 = failCount call i ops.length ∧
    (bulkUpdateLoop call ops i).1 + failCount call i ops.length =
      ops.length := by
  intro ops
  induction ops with
  | nil => intro i; simp [bulkUpdateLoop, failCount]
  | cons o rest ih =>
    intro i
    obtain ⟨ih1, ih2⟩ := ih (i + 1)
    cases hc : call i with
    | ok rec =>
      have hf : callFails call i = false := by simp [callFails, hc]
      constructor
      · simp [bulkUpdateLoop, hc, failCount, hf, ih1]
      · simp [bulkUpdateLoop, hc, failCount, hf]
        omega
    | error e =>
      have hf : callFails call i = true := by simp [callFails, hc]
      constructor
      · simp [bulkUpdateLoop, hc, failCount, hf, ih1]
        omega
      · simp [bulkUpdateLoop, hc, failCount, hf]
        omega

theorem lastIndexOfChar_replicate {c a : Char} (h : ¬ a = c) :
    ∀ n : Nat, lastIndexOfChar c (List.replicate n a) = none := by
  intro n
  induction n with
  | zero => rfl
  | succ n ih => simp [List.replicate_succ, lastIndexOfChar, ih, h]

theorem truncate_replicate_over {a : Char} (hne : ¬ a = '\n')
    {n : Nat} (hn : CHARACTER_LIMIT < n) :
    truncateIfNeeded (List.replicate n a) =
      List.replicate CHARACTER_LIMIT a ++ truncationNotice := by
  have hlen : ¬ (List.replicate n a).length ≤ CHARACTER_LIMIT := by
    rw [List.length_replicate]; omega
  have htake : (List.replicate n a).take CHARACTER_LIMIT =
      List.replicate CHARACTER_LIMIT a := by
    rw [List.take_replicate]
    congr 1
    exact Nat.min_eq_left (Nat.le_of_lt hn)
  simp only [truncateIfNeeded, if_neg hlen, htake,
    lastIndexOfChar_replicate hne]

/-! ### Claim theorems -/

/-- C3, counterexample: the spec's partial Fisher–Yates (stop after `n`
swaps, return the LAST `n` positions) does not equal the implemented
`randomSample` — already on the two-element list `[0, 1]` with `n = 1` and
the random stream constantly 0, the spec procedure returns `[0]` while the
implementation returns `[1]`. -/
theorem specSample_ne_randomSample :
    specSample (fun _ => 0) ([0, 1] : List Nat) 1 ≠
      randomSample (fun _ => 0) ([0, 1] : List Nat) 1 := by
  decide

/-- C3, amended: for every record list and every `n < len`, `randomSample`
equals the spec's backward-swapping procedure run for `len - 1` swaps (a
FULL Fisher–Yates pass, not stopping after `n`), with the FIRST `n`
positions of the working copy returned (not the last `n`). -/
theorem randomSample_eq_full_shuffle_take (g : Nat → Nat) {α : Type}
    (items : List α) (n : Nat) (h : n < items.length) :
    randomSample g items n =
      (shuffleSteps g items (items.length - 1) (items.length - 1)).take n := by
  rw [shuffleSteps_eq_fyShuffle g (items.length - 1) (items.length - 1)
    items (Nat.le_refl _)]
  rw [randomSample, if_neg (by omega)]

/-- C3, witness for the amended theorem at the concrete list `[5, 6, 7]`
with `n = 2`. -/
theorem randomSample_eq_full_shuffle_take_witness :
    randomSample (fun _ => 1) ([5, 6, 7] : List Nat) 2 =
      (shuffleSteps (fun _ => 1) ([5, 6, 7] : List Nat) 2 2).take 2 :=
  randomSample_eq_full_shuffle_take (fun _ => 1) ([5, 6, 7] : List Nat) 2
    (by decide)

/-- C4: the list-records handler produces exactly one of the three output
forms, by the fixed precedence summary > sample > paginated: with
`summary_only` set the form is summary regardless of `random_sample`; with
`summary_only` unset and `random_sample` set it is the sample form; with
both unset it is the paginated form. -/
theorem listRecords_mode_precedence (g : Nat → Nat) (p : ListParams)
    (records : List DnsRecord) :
    (p.summary_only = true →
      responseForm (listRecordsOutput g p records) = ResponseForm.summary) ∧
    (p.summary_only = false → p.random_sample = true →
      responseForm (listRecordsOutput g p records) = ResponseForm.sample) ∧
    (p.summary_only = false → p.random_sample = false →
      responseForm (listRecordsOutput g p records) =
        ResponseForm.paginated) := by
  refine ⟨?_, ?_, ?_⟩
  · intro h; simp [listRecordsOutput, h, responseForm]
  · intro h1 h2; simp [listRecordsOutput, h1, h2, responseForm]
  · intro h1 h2; simp [listRecordsOutput, h1, h2, responseForm]

/-- C4, witness: with both `summary_only` and `random_sample` set, the
summary form wins. -/
theorem listRecords_mode_precedence_witness :
    responseForm (listRecordsOutput (fun _ => 0) summaryParams []) =
      ResponseForm.summary :=
  (listRecords_mode_precedence (fun _ => 0) summaryParams []).1 rfl

/-- C5: `randomSample` returns `min n len` records; it preserves
duplicate-freeness (sampling without replacement); and when `n ≥ len` the
output is the input record set itself.  (The source shuffles a spread copy
of its input, so the input array is never mutated; in this pure embedding
that is inherent.) -/
theorem randomSample_size_nodup (g : Nat → Nat) {α : Type} (R : List α)
    (n : Nat) :
    (randomSample g R n).length = min n R.length ∧
    (R.Nodup → (randomSample g R n).Nodup) ∧
    (R.length ≤ n → randomSample g R n = R) := by
  by_cases h : R.length ≤ n
  · rw [randomSample, if_pos h]
    exact ⟨(Nat.min_eq_right h).symm, fun hn => hn, fun _ => rfl⟩
  · rw [randomSample, if_neg h]
    refine ⟨?_, ?_, fun hc => absurd hc h⟩
    · rw [List.length_take, fyShuffle_length]
    · intro hn
      exact (List.take_sublist n _).nodup
        ((fyShuffle_perm g (R.length - 1) R).symm.nodup hn)

/-- C5, witness: sampling 2 of 3 distinct elements gives 2 distinct
elements. -/
theorem randomSample_size_nodup_witness :
    (randomSample (fun _ => 0) ([10, 20, 30] : List Nat) 2).Nodup :=
  (randomSample_size_nodup (fun _ => 0) ([10, 20, 30] : List Nat) 2).2.1
    (by decide)

/-- C10: `include_details` overrides `concise` — when it is set the
formatter runs with `concise = false`, which is the identity embedding,
whatever `concise` was; and the concise projection is applied exactly when
`include_details` is unset and `concise` is set. -/
theorem include_details_overrides_concise (d c : Bool) (r : DnsRecord) :
    (d = true → formatRecord r (resolveConcise d c) = Sum.inl r) ∧
    (resolveConcise d c = true ↔ d = false ∧ c = true) := by
  constructor
  · intro hd; subst hd; simp [resolveConcise, formatRecord]
  · cases d <;> cases c <;> simp [resolveConcise]

/-- C10, witness: with `include_details = true` and `concise = true` the
concrete record is passed through unchanged. -/
theorem include_details_overrides_concise_witness :
    formatRecord rA (resolveConcise true true) = Sum.inl rA :=
  (include_details_overrides_concise true true rA).1 rfl

/-- C7: for every record list, the summary counts every record exactly
once — `total` is the input length, the by_type bucket counts sum to
`total`, the two proxy buckets sum to `total`, every bucket holds exactly
the records whose type key maps to it, and a record with a missing type is
keyed to the explicit "UNKNOWN" bucket rather than dropped. -/
theorem buildRecordSummary_invariants (records : List DnsRecord) :
    (buildRecordSummary records).total = records.length ∧
    sumCounts (buildRecordSummary records).by_type =
      (buildRecordSummary records).total ∧
    (buildRecordSummary records).proxied +
      (buildRecordSummary records).dns_only =
      (buildRecordSummary records).total ∧
    (∀ t : List Char, lookupCount (buildRecordSummary records).by_type t =
      records.countP (fun r => typeKey r == t)) ∧
    (∀ r : DnsRecord, r.type = none → typeKey r = "UNKNOWN".data) := by
  obtain ⟨h1, h2, h3⟩ := summaryLoop_spec records [] 0 0
  refine ⟨rfl, ?_, ?_, ?_, ?_⟩
  · show sumCounts (summaryLoop records [] 0 0).1 = records.length
    rw [h1]; simp [sumCounts]
  · show (summaryLoop records [] 0 0).2.1 +
      (summaryLoop records [] 0 0).2.2 = records.length
    rw [h2]
    omega
  · intro t
    show lookupCount (summaryLoop records [] 0 0).1 t = _
    rw [h3 t]; simp [lookupCount]
  · intro r hr; simp [typeKey, hr]

/-- C7, witness: a record with no type is counted under "UNKNOWN". -/
theorem buildRecordSummary_invariants_witness :
    lookupCount (buildRecordSummary [rNoType]).by_type ("UNKNOWN".data) =
      1 := by
  rw [(buildRecordSummary_invariants [rNoType]).2.2.2.1 ("UNKNOWN".data)]
  decide

/-- C8: for every record set, page ≥ 1 and per_page ≥ 1, the paginated
mode returns the slice `[(page-1)*per_page, page*per_page)` (stated
element by element), `has_more` is the strict test
`page*per_page < total`, `count` is the number of items actually on the
page, and a page beyond the last yields `count = 0` rather than an
error. -/
theorem paginated_slice_spec {α : Type} (records : List α)
    (page perPage : Nat) (h1 : 1 ≤ page) (h2 : 1 ≤ perPage) :
    ((buildPaginationMeta records.length
        ((records.drop ((page - 1) * perPage)).take perPage)
        page perPage).count =
      ((records.drop ((page - 1) * perPage)).take perPage).length) ∧
    ((buildPaginationMeta records.length
        ((records.drop ((page - 1) * perPage)).take perPage)
        page perPage).has_more = true ↔
      page * perPage < records.length) ∧
    (∀ i : Nat, i < perPage →
      ((records.drop ((page - 1) * perPage)).take perPage)[i]? =
        records[(page - 1) * perPage + i]?) ∧
    (records.length ≤ (page - 1) * perPage →
      (buildPaginationMeta records.length
        ((records.drop ((page - 1) * perPage)).take perPage)
        page perPage).count = 0) := by
  refine ⟨rfl, ?_, ?_, ?_⟩
  · simp [buildPaginationMeta]
  · intro i hi
    rw [List.getElem?_take, if_pos hi, List.getElem?_drop]
  · intro hbeyond
    show ((records.drop ((page - 1) * perPage)).take perPage).length = 0
    rw [List.length_take, List.length_drop]
    omega

/-- C8, witness: a 3-element set at page 5 with per_page 2 yields a valid
empty page. -/
theorem paginated_slice_spec_witness :
    (buildPaginationMeta ([1, 2, 3] : List Nat).length
      ((([1, 2, 3] : List Nat).drop ((5 - 1) * 2)).take 2) 5 2).count = 0 :=
  (paginated_slice_spec ([1, 2, 3] : List Nat) 5 2 (by decide)
    (by decide)).2.2.2 (by decide)

/-- C9: the concise projection carries `proxied` exactly for the types
"A", "AAAA" and "CNAME" (hence never for "MX" or "TXT"); carries the
record's `priority` whenever the type is "MX" and the record has one;
lifts `priority`, `weight` and `port` out of the nested data payload for
"SRV" records; and renders the sentinel ttl value 1 as the literal
marker. -/
theorem formatRecord_concise_fields (r : DnsRecord) :
    ((formatRecordConcise r).proxied ≠ none ↔
      (r.type.getD [] = "A".data ∨ r.type.getD [] = "AAAA".data ∨
        r.type.getD [] = "CNAME".data)) ∧
    (r.type.getD [] = "MX".data → (formatRecordConcise r).proxied = none) ∧
    (r.type.getD [] = "TXT".data → (formatRecordConcise r).proxied = none) ∧
    (∀ p : Int, r.type.getD [] = "MX".data → r.priority = some p →
      (formatRecordConcise r).priority = some p) ∧
    (∀ d : SrvData, r.type.getD [] = "SRV".data → r.data = some d →
      (formatRecordConcise r).priority = d.priority ∧
      (formatRecordConcise r).weight = d.weight ∧
      (formatRecordConcise r).port = d.port) ∧
    (r.ttl = some 1 → (formatRecordConcise r).ttl = TtlValue.auto) := by
  refine ⟨?_, ?_, ?_, ?_, ?_, ?_⟩
  · by_cases hd : r.type.getD [] = "A".data ∨ r.type.getD [] = "AAAA".data ∨
        r.type.getD [] = "CNAME".data
    · simp [formatRecordConcise, hd]
    · simp [formatRecordConcise, hd]
  · intro h
    have hno : ¬ (r.type.getD [] = "A".data ∨
        r.type.getD [] = "AAAA".data ∨ r.type.getD [] = "CNAME".data) := by
      rw [h]; decide
    simp [formatRecordConcise, hno]
  · intro h
    have hno : ¬ (r.type.getD [] = "A".data ∨
        r.type.getD [] = "AAAA".data ∨ r.type.getD [] = "CNAME".data) := by
      rw [h]; decide
    simp [formatRecordConcise, hno]
  · intro p hty hp
    simp [formatRecordConcise, hty, hp]
  · intro d hty hd
    have hmx : ¬ ("SRV".data = "MX".data ∧ r.priority ≠ none) := by
      intro hcon
      exact absurd hcon.1 (by decide)
    rw [← hty] at hmx
    simp [formatRecordConcise, hty, hd, hmx]
  · intro h
    simp [formatRecordConcise, h]

/-- C9, witness: the concrete mail-exchange record gets no `proxied`
field, keeps its priority, and renders ttl 1 as the marker. -/
theorem formatRecord_concise_fields_witness :
    (formatRecordConcise rMX).proxied = none ∧
    (formatRecordConcise rMX).priority = some 10 ∧
    (formatRecordConcise rMX).ttl = TtlValue.auto :=
  ⟨(formatRecord_concise_fields rMX).2.1 (by decide),
   (formatRecord_concise_fields rMX).2.2.2.1 10 (by decide) rfl,
   (formatRecord_concise_fields rMX).2.2.2.2.2 rfl⟩

/-- C6: text within the 25000-character budget passes through the size
guard unchanged; longer text becomes a prefix of the input of length at
most the budget followed by the fixed notice, where the prefix is cut back
to the last newline of the first 25000 characters exactly when that
newline lies past 80% of the budget (index > 20000 = 4·25000/5), and is
the hard cut at the boundary otherwise; the result always ends with the
fixed notice. -/
theorem truncateIfNeeded_spec (t : List Char) :
    (t.length ≤ CHARACTER_LIMIT → truncateIfNeeded t = t) ∧
    (CHARACTER_LIMIT < t.length →
      ∃ p : List Char,
        truncateIfNeeded t = p ++ truncationNotice ∧
        truncationNotice <:+ truncateIfNeeded t ∧
        p.length ≤ CHARACTER_LIMIT ∧ p <+: t ∧
        ((∃ i : Nat, isLastIndexOf '\n' (t.take CHARACTER_LIMIT) i ∧
            4 * CHARACTER_LIMIT / 5 < i ∧ p = t.take i) ∨
          ((∀ i : Nat, isLastIndexOf '\n' (t.take CHARACTER_LIMIT) i →
            i ≤ 4 * CHARACTER_LIMIT / 5) ∧ p = t.take CHARACTER_LIMIT))) := by
  constructor
  · intro h
    rw [truncateIfNeeded, if_pos h]
  · intro h
    have hnle : ¬ t.length ≤ CHARACTER_LIMIT := by omega
    have hltake : (t.take CHARACTER_LIMIT).length ≤ CHARACTER_LIMIT := by
      rw [List.length_take]
      exact Nat.min_le_left _ _
    cases hL : lastIndexOfChar '\n' (t.take CHARACTER_LIMIT) with
    | none =>
      refine ⟨t.take CHARACTER_LIMIT, ?_, ?_, hltake,
        List.take_prefix _ _, Or.inr ⟨?_, rfl⟩⟩
      · simp only [truncateIfNeeded, if_neg hnle, hL]
      · simp only [truncateIfNeeded, if_neg hnle, hL]
        exact List.suffix_append _ _
      · intro i hi
        exact absurd hi.1 (lastIndexOfChar_none hL i)
    | some i0 =>
      have hocc := lastIndexOfChar_some hL
      have hi0lt : i0 < (t.take CHARACTER_LIMIT).length := by
        by_contra hcon
        have h1 := hocc.1
        rw [List.getElem?_eq_none (Nat.le_of_not_lt hcon)] at h1
        exact Option.noConfusion h1
      have hi0L : i0 < CHARACTER_LIMIT := Nat.lt_of_lt_of_le hi0lt hltake
      by_cases hcut : 4 * CHARACTER_LIMIT / 5 < i0
      · have htt : (t.take CHARACTER_LIMIT).take i0 = t.take i0 := by
          rw [List.take_take]
          congr 1
          exact Nat.min_eq_left (Nat.le_of_lt hi0L)
        refine ⟨t.take i0, ?_, ?_, ?_, List.take_prefix _ _,
          Or.inl ⟨i0, hocc, hcut, rfl⟩⟩
        · simp only [truncateIfNeeded, if_neg hnle, hL, if_pos hcut, htt]
        · simp only [truncateIfNeeded, if_neg hnle, hL, if_pos hcut]
          exact List.suffix_append _ _
        · rw [List.length_take]
          exact Nat.le_trans (Nat.min_le_left _ _) (Nat.le_of_lt hi0L)
      · refine ⟨t.take CHARACTER_LIMIT, ?_, ?_, hltake,
          List.take_prefix _ _, Or.inr ⟨?_, rfl⟩⟩
        · simp only [truncateIfNeeded, if_neg hnle, hL, if_neg hcut]
        · simp only [truncateIfNeeded, if_neg hnle, hL, if_neg hcut]
          exact List.suffix_append _ _
        · intro i hi
          rw [isLastIndexOf_unique hi hocc]
          omega

/-- C6, witness: a short text passes through unchanged. -/
theorem truncateIfNeeded_spec_witness :
    ("abc".data).length ≤ CHARACTER_LIMIT ∧
      truncateIfNeeded ("abc".data) = "abc".data :=
  ⟨by decide, (truncateIfNeeded_spec ("abc".data)).1 (by decide)⟩

/-- C1, counterexample: a summary-mode response is NOT passed through the
size guard — with a serializer whose summary payload is 30000 characters,
the text the handler returns (the raw payload) differs from the
size-guarded payload, which would have been truncated to the budget plus
the notice. -/
theorem summary_response_not_size_guarded :
    listRecordsText (fun _ => 0) serBig summaryParams [] ≠
      truncateIfNeeded
        (serBig (listRecordsOutput (fun _ => 0) summaryParams [])) := by
  intro h
  have e1 : listRecordsText (fun _ => 0) serBig summaryParams [] =
      List.replicate 30000 'a' := rfl
  have e2 : truncateIfNeeded
      (serBig (listRecordsOutput (fun _ => 0) summaryParams [])) =
      List.replicate CHARACTER_LIMIT 'a' ++ truncationNotice :=
    truncate_replicate_over (by decide) (by norm_num [CHARACTER_LIMIT])
  rw [e1, e2] at h
  have hlen := congrArg List.length h
  rw [List.length_replicate, List.length_append, List.length_replicate]
    at hlen
  have hnot : truncationNotice.length ≤ 1000 := by
    set_option maxRecDepth 4000 in decide
  rw [CHARACTER_LIMIT] at hlen
  omega

/-- C1, amended: the size guard wraps the serialized payload as the last
step for sample-mode and paginated-mode list responses, but summary-mode
responses, single-record get responses, and bulk-mutation result payloads
(create and update) are serialized and returned without passing through
the size guard. -/
theorem size_guard_application {op : Type} (g : Nat → Nat)
    (ser : ListOutput → List Char)
    (serR : (DnsRecord ⊕ ConciseRecord) → List Char)
    (serB : BulkCreateResult → List Char)
    (serU : BulkUpdateResult → List Char)
    (call : DirectoryCall) (ops : List op) (uops : List UpdateOp)
    (p : ListParams) (records : List DnsRecord) (r : DnsRecord)
    (d c : Bool) :
    (p.summary_only = false →
      listRecordsText g ser p records =
        truncateIfNeeded (ser (listRecordsOutput g p records))) ∧
    (p.summary_only = true →
      listRecordsText g ser p records =
        ser (listRecordsOutput g p records)) ∧
    getRecordText serR r d c = serR (formatRecord r (resolveConcise d c)) ∧
    bulkCreateText serB call ops = serB (cf_dns_bulk_create call ops) ∧
    bulkUpdateText serU call uops = serU (cf_dns_bulk_update call uops) := by
  refine ⟨?_, ?_, rfl, rfl, rfl⟩
  · intro h
    rw [listRecordsText, if_neg (by rw [h]; exact Bool.false_ne_true)]
  · intro h
    rw [listRecordsText, if_pos h]

/-- C1, witness for the amended theorem: with `summary_only` set the
returned text is the bare serialized payload. -/
theorem size_guard_application_witness :
    listRecordsText (fun _ => 0) serBig summaryParams [] =
      serBig (listRecordsOutput (fun _ => 0) summaryParams []) :=
  (size_guard_application (fun _ => 0) serBig (fun _ => []) (fun _ => [])
    (fun _ => []) exCall ([] : List Unit) [] summaryParams [] rA true
    true).2.1 rfl

/-- C2: for every list of at most 100 bulk create (or update) operations
in which exactly `k` Directory calls fail, the engine reports
`failed = k`, `created` (or `updated`) `= length - k`,
`total = length`, and one result entry per operation in input order
(`results[i].index = i`), where entry `i` succeeds exactly when call `i`
does, a failed entry carries the error description, and a failure leaves
every other entry — earlier or later — in place. -/
theorem bulk_engine_partial_failure {op : Type} (call : DirectoryCall)
    (ops : List op) (uops : List UpdateOp)
    (hc : ops.length ≤ 100) (hu : uops.length ≤ 100) :
    ((cf_dns_bulk_create call ops).failed = failCount call 0 ops.length ∧
     (cf_dns_bulk_create call ops).created =
       ops.length - failCount call 0 ops.length ∧
     (cf_dns_bulk_create call ops).total = ops.length ∧
     (cf_dns_bulk_create call ops).results.length = ops.length ∧
     (∀ i : Nat, i < ops.length →
       ∃ o : BulkOutcome,
         (cf_dns_bulk_create call ops).results[i]? = some o ∧
         o.index = i ∧ o.success = ! callFails call i ∧
         (callFails call i = true →
           ∃ e, o.error = some e ∧ call i = Except.error e))) ∧
    ((cf_dns_bulk_update call uops).failed = failCount call 0 uops.length ∧
     (cf_dns_bulk_update call uops).updated =
       uops.length - failCount call 0 uops.length ∧
     (cf_dns_bulk_update call uops).total = uops.length ∧
     (cf_dns_bulk_update call uops).results.length = uops.length ∧
     (∀ i : Nat, ∀ u : UpdateOp, uops[i]? = some u →
       ∃ o : BulkUpdateOutcome,
         (cf_dns_bulk_update call uops).results[i]? = some o ∧
         o.index = i ∧ o.record_id = u.record_id ∧
         o.success = ! callFails call i ∧
         (callFails call i = true →
           ∃ e, o.error = some e ∧ call i = Except.error e))) := by
  obtain ⟨hcf, hcc⟩ := bulkCreateLoop_counts call ops 0
  obtain ⟨huf, huc⟩ := bulkUpdateLoop_counts call uops 0
  constructor
  · refine ⟨hcf, ?_, rfl, ?_, ?_⟩
    · show (bulkCreateLoop call ops 0).1 = _
      omega
    · show (bulkCreateLoop call ops 0).2.2.length = _
      rw [bulkCreateLoop_results, List.length_map, List.length_range']
    · intro i hi
      refine ⟨createOutcome call i, ?_, ?_⟩
      · show (bulkCreateLoop call ops 0).2.2[i]? = _
        rw [bulkCreateLoop_results, List.getElem?_map,
          List.getElem?_range' 0 1 hi]
        simp
      · unfold createOutcome callFails
        cases hcall : call i with
        | ok rec => exact ⟨rfl, rfl, fun hfalse => Bool.noConfusion hfalse⟩
        | error e => exact ⟨rfl, rfl, fun _ => ⟨e, rfl, rfl⟩⟩
  · refine ⟨huf, ?_, rfl, ?_, ?_⟩
    · show (bulkUpdateLoop call uops 0).1 = _
      omega
    · show (bulkUpdateLoop call uops 0).2.2.length = _
      exact bulkUpdateLoop_length call uops 0
    · intro i u hu2
      refine ⟨updateOutcome call i u, ?_, ?_⟩
      · show (bulkUpdateLoop call uops 0).2.2[i]? = _
        have := bulkUpdateLoop_results call uops 0 i u hu2
        simpa using this
      · unfold updateOutcome callFails
        cases hcall : call i with
        | ok rec =>
          exact ⟨rfl, rfl, rfl, fun hfalse => Bool.noConfusion hfalse⟩
        | error e => exact ⟨rfl, rfl, rfl, fun _ => ⟨e, rfl, rfl⟩⟩

/-- C2, witness: three create ops of which the middle Directory call
fails, and one update op, at the concrete failing call. -/
theorem bulk_engine_partial_failure_witness :
    (cf_dns_bulk_create exCall ([(), (), ()] : List Unit)).total = 3 ∧
    (cf_dns_bulk_update exCall [{ record_id := "rid".data }]).total = 1 :=
  ⟨(bulk_engine_partial_failure exCall ([(), (), ()] : List Unit)
      [{ record_id := "rid".data }] (by decide) (by decide)).1.2.2.1,
   (bulk_engine_partial_failure exCall ([(), (), ()] : List Unit)
      [{ record_id := "rid".data }] (by decide) (by decide)).2.2.2.1⟩

end CfDns
